import Mathlib

/-!
Verification of the KERI core coring module (`src/keri/core/coring.py`):
a shallow embedding of the cryptographic-material codec (`CryMat`), the
count material (`CryCounter`), the version-string functions
(`Versify`/`Deversify`), the key-event framer (`Serder`), the verification
surfaces (`Verfer.verify`, `Prefixer.verify`) and the threshold evaluator
(`Tholder`), together with theorems settling the specified properties.

Bytes are modelled as `List Nat` (each element a byte value) and wire text
as `List Char`.  Python exceptions are modelled with `Except Err`.
-/

deriving instance DecidableEq for Except

set_option synthInstance.maxSize 512

namespace Keri

/-- Error kinds raised by the Python code: `ShortageError`, `ValidationError`,
`ValueError`, `VersionError`, `EmptyMaterialError`, `DerivationError`,
`KeyError` (an uncaught dict lookup), `TypeError`. -/
inductive Err where
  | shortage
  | validation
  | valueErr
  | versionErr
  | empty
  | derivation
  | keyError
  | typeErr
  deriving DecidableEq, Repr

/-! ## Base64URL codec (`B64ChrByIdx`, `B64IdxByChr`, `IntToB64`, `B64ToInt`,
`urlsafe_b64encode`, `urlsafe_b64decode`) -/

/-- `B64ChrByIdx`: maps index 0..63 to the Base64URL alphabet
`A-Z a-z 0-9 - _`.  (Callers only pass values below 64; the final catch-all
is never consulted by the embedded code.) -/
def b64ChrByIdx (n : Nat) : Char :=
  if n < 26 then Char.ofNat (65 + n)
  else if n < 52 then Char.ofNat (97 + (n - 26))
  else if n < 62 then Char.ofNat (48 + (n - 52))
  else if n = 62 then '-'
  else '_'

/-- `B64IdxByChr`: maps a Base64URL character to its index; `none` models the
`KeyError` a Python dict lookup raises on any other character. -/
def b64IdxByChr (c : Char) : Option Nat :=
  if 'A' ≤ c ∧ c ≤ 'Z' then some (c.toNat - 65)
  else if 'a' ≤ c ∧ c ≤ 'z' then some (c.toNat - 97 + 26)
  else if '0' ≤ c ∧ c ≤ '9' then some (c.toNat - 48 + 52)
  else if c = '-' then some 62
  else if c = '_' then some 63
  else none

/-- The digit-accumulating loop of `IntToB64` (repeatedly take `i % 64` and
prepend), written with a fuel argument so it reduces in the kernel; `fuel`
bounds the number of divisions by 64 and `i + 1` always suffices. -/
def b64DigitsAux : Nat → Nat → List Char → List Char
  | 0, _, acc => acc
  | fuel + 1, i, acc =>
      if i < 64 then b64ChrByIdx i :: acc
      else b64DigitsAux fuel (i / 64) (b64ChrByIdx (i % 64) :: acc)

/-- Base-64 digit expansion of `i`, most significant digit first. -/
def b64Digits (i : Nat) : List Char := b64DigitsAux (i + 1) i []

/-- `IntToB64(i, l)`: base-64 digits of `i` left-padded with `'A'` (value 0)
to at least `l` characters; never truncates. -/
def intToB64 (i : Nat) (l : Nat) : List Char :=
  let d := b64Digits i
  List.replicate (l - d.length) 'A' ++ d

/-- `B64ToInt(cs)`: base-64 positional value; `none` models the `KeyError`
on a non-alphabet character. -/
def b64ToInt (cs : List Char) : Option Nat :=
  cs.foldl (fun acc c =>
    match acc, b64IdxByChr c with
    | some a, some v => some (a * 64 + v)
    | _, _ => none) (some 0)

/-- `base64.urlsafe_b64encode`: 3 input bytes become 4 characters; a final
group of 1 or 2 bytes is completed with `'='` padding. -/
def encodeB64 : List Nat → List Char
  | [] => []
  | [a] => [b64ChrByIdx (a / 4), b64ChrByIdx (a % 4 * 16), '=', '=']
  | [a, b] => [b64ChrByIdx (a / 4), b64ChrByIdx (a % 4 * 16 + b / 16),
               b64ChrByIdx (b % 16 * 4), '=']
  | a :: b :: c :: rest =>
      b64ChrByIdx (a / 4) :: b64ChrByIdx (a % 4 * 16 + b / 16) ::
      b64ChrByIdx (b % 16 * 4 + c / 64) :: b64ChrByIdx (c % 64) :: encodeB64 rest

/-- `base64.urlsafe_b64decode` on clean input (alphabet characters with
trailing `'='` padding only): inverse of `encodeB64`; `none` models the
decode error on malformed input. -/
def decodeB64 : List Char → Option (List Nat)
  | [] => some []
  | [c1, c2, '=', '='] =>
      match b64IdxByChr c1, b64IdxByChr c2 with
      | some v1, some v2 => some [v1 * 4 + v2 / 16]
      | _, _ => none
  | [c1, c2, c3, '='] =>
      match b64IdxByChr c1, b64IdxByChr c2, b64IdxByChr c3 with
      | some v1, some v2, some v3 =>
          some [v1 * 4 + v2 / 16, v2 % 16 * 16 + v3 / 4]
      | _, _, _ => none
  | c1 :: c2 :: c3 :: c4 :: rest =>
      match b64IdxByChr c1, b64IdxByChr c2, b64IdxByChr c3, b64IdxByChr c4,
            decodeB64 rest with
      | some v1, some v2, some v3, some v4, some bs =>
          some ((v1 * 4 + v2 / 16) :: (v2 % 16 * 16 + v3 / 4) ::
                (v3 % 4 * 64 + v4) :: bs)
      | _, _, _, _, _ => none
  | _ => none

/-! ## Derivation code tables (`CryOneDex` .. `CryCntDex` and size maps) -/

/-- `CryOneCodex`: one-character derivation codes. -/
def CryOneCodes : List String :=
  ["A", "B", "C", "D", "E", "F", "G", "H", "I", "J", "K", "L"]

/-- `CryTwoCodex`: two-character derivation codes (selector `'0'`). -/
def CryTwoCodes : List String := ["0A", "0B", "0C"]

/-- `CryFourCodex`: four-character derivation codes (selector `'1'`). -/
def CryFourCodes : List String := ["1AAA", "1AAB", "1AAC", "1AAD", "1AAE"]

/-- `CryCntCodex`: count codes (selector `'-'`). -/
def CryCntCodes : List String := ["-A", "-B"]

def inOne (c : String) : Bool := CryOneCodes.contains c
def inTwo (c : String) : Bool := CryTwoCodes.contains c
def inFour (c : String) : Bool := CryFourCodes.contains c
def inCnt (c : String) : Bool := CryCntCodes.contains c

/-- The merged `CrySizes` table (full qb64 length per code).  `none` models
the `KeyError` of a missing dict entry; note `"0C"` is in `CryTwoDex` but has
no size entry in the source. -/
def crySize (code : String) : Option Nat :=
  match code with
  | "-A" | "-B" => some 4
  | "A" | "B" | "C" | "D" | "E" | "F" | "G" | "H" | "I" | "J" => some 44
  | "K" | "L" => some 76
  | "0A" => some 24
  | "0B" => some 88
  | "1AAA" | "1AAB" => some 48
  | "1AAC" | "1AAD" => some 80
  | "1AAE" => some 156
  | _ => none

/-- The merged `CryRawSizes` table (raw byte length per code). -/
def cryRawSize (code : String) : Option Nat :=
  match code with
  | "-A" | "-B" => some 0
  | "A" | "B" | "C" | "D" | "E" | "F" | "G" | "H" | "I" | "J" => some 32
  | "K" | "L" => some 56
  | "0A" => some 16
  | "0B" => some 64
  | "1AAA" | "1AAB" => some 33
  | "1AAC" | "1AAD" => some 57
  | "1AAE" => some 114
  | _ => none

/-- `CryIdxSizes` (= `CryCntIdxSizes`): base-64 index characters embedded in
a count code. -/
def cryCntIdxSize (code : String) : Option Nat :=
  match code with
  | "-A" | "-B" => some 2
  | _ => none

/-- `MINCRYSIZE = min(CrySizes.values())`: the count codes' total size 4 is
the minimum of the merged size table. -/
def MINCRYSIZE : Nat := 4

/-- `CRYCNTMAX`: maximum count value with two base-64 digits. -/
def CRYCNTMAX : Nat := 4095

/-! ## CryMat -/

/-- The state of a constructed `CryMat`: `.code`, `.index`, `.raw`. -/
structure CryMatS where
  code : String
  index : Nat
  raw : List Nat
  deriving DecidableEq, Repr

/-- `CryMat._pad(raw)`: `m = len(raw) % 3; 3 - m if m else 0`. -/
def padOf (raw : List Nat) : Nat :=
  let m := raw.length % 3
  if m = 0 then 0 else 3 - m

/-- Python's slice `s[:-pad]`.  For `pad = 0` this is `s[:0]`, the EMPTY
sequence (not the whole of `s`): `-0 == 0` in Python. -/
def sliceDropPad (s : List Char) (pad : Nat) : List Char :=
  if pad = 0 then [] else s.take (s.length - pad)

/-- `CryMat.__init__` on the `(raw, code, index)` path: validates the pad
class of `code` against `len(raw)`, range-checks `index` for count codes,
truncates `raw` to the code's raw size (`raw = raw[:CryRawSizes[code]]`) and
rejects a shorter `raw`. -/
def crymatFromRaw (raw : List Nat) (code : String) (index : Nat) :
    Except Err CryMatS :=
  if code = "" then .error .empty
  else
    let pad := padOf raw
    if !((pad == 1 && inOne code) || (pad == 2 && inTwo code) ||
         (pad == 0 && inFour code) || (pad == 0 && inCnt code)) then
      .error .validation
    else if inCnt code && decide (index > CRYCNTMAX) then .error .validation
    else
      match cryRawSize code with
      | none => .error .keyError
      | some rs =>
          let raw2 := raw.take rs
          if raw2.length ≠ rs then .error .validation
          else .ok ⟨code, index, raw2⟩

/-- `CryMat._infil()`: for a count code, `full = code + IntToB64(index, 2)`,
else `full = code`; validates `len(full) % 4 == pad`; emits
`full + encodeB64(raw)[:-pad]` (note the Python slice: for `pad == 0` the
encoded raw is dropped entirely). -/
def infil (code : String) (index : Nat) (raw : List Nat) :
    Except Err (List Char) :=
  let fullE : Except Err (List Char) :=
    if inCnt code then
      match cryCntIdxSize code with
      | none => .error .keyError
      | some l => .ok (code.toList ++ intToB64 index l)
    else .ok code.toList
  match fullE with
  | .error e => .error e
  | .ok full =>
      let pad := padOf raw
      if full.length % 4 ≠ pad then .error .validation
      else .ok (full ++ sliceDropPad (encodeB64 raw) pad)

/-- Common tail of `CryMat._exfil` after the code has been selected:
`buf` is the input truncated to the code's full size, `cs` the code size
consumed; checks the exact length, re-appends `cs % 4` pad characters and
Base64-decodes, then checks the decoded length. -/
def exfilTail (buf : List Char) (cs : Nat) (code : String) (idx : Nat) :
    Except Err CryMatS :=
  match crySize code with
  | none => .error .keyError
  | some sz =>
      if buf.length ≠ sz then
        if buf.length < sz then .error .shortage else .error .validation
      else
        let pad := cs % 4
        match decodeB64 (buf.drop cs ++ List.replicate pad '=') with
        | none => .error .valueErr
        | some raw =>
            if raw.length ≠ (buf.length - cs) * 3 / 4 then .error .valueErr
            else .ok ⟨code, idx, raw⟩

/-- `CryMat._exfil(qb64b)`: shortage below `MINCRYSIZE`; the first character
selects the table (one-char, `'0'` two-char, `'1'` four-char, `'-'` count
with two trailing index characters); unknown selector is a `ValueError`. -/
def exfil (q : List Char) : Except Err CryMatS :=
  if q.length < MINCRYSIZE then .error .shortage
  else
    let sel := String.mk (q.take 1)
    if inOne sel then
      match crySize sel with
      | none => .error .keyError
      | some sz => exfilTail (q.take sz) 1 sel 0
    else if sel = "0" then
      let code := String.mk (q.take 2)
      if inTwo code then
        match crySize code with
        | none => .error .keyError
        | some sz => exfilTail (q.take sz) 2 code 0
      else .error .validation
    else if sel = "1" then
      let code := String.mk (q.take 4)
      if inFour code then
        match crySize code with
        | none => .error .keyError
        | some sz => exfilTail (q.take sz) 4 code 0
      else .error .validation
    else if sel = "-" then
      let code := String.mk (q.take 2)
      if inCnt code then
        match crySize code with
        | none => .error .keyError
        | some sz =>
            let buf := q.take sz
            match b64ToInt ((buf.drop 2).take 2) with
            | none => .error .keyError
            | some idx => exfilTail buf 4 code idx
      else .error .validation
    else .error .valueErr

/-- `.qb64b` of a constructed CryMat. -/
def crymatQb64 (m : CryMatS) : Except Err (List Char) :=
  infil m.code m.index m.raw

/-- `CryCounter.__init__(count=n)`: `raw` is forced empty, `index = count`,
default code `"-A"`, then the `CryMat` construction and the post-check that
the code is a count code. -/
def cryCounter (count : Nat) : Except Err CryMatS :=
  match crymatFromRaw [] "-A" count with
  | .error e => .error e
  | .ok m => if inCnt m.code then .ok m else .error .validation

/-! ## Version strings (`Versify`, `Deversify`, `Rever` regex `VEREX`) -/

/-- `Serials`: the three serialization kinds. -/
inductive Kind where
  | json
  | mgpk
  | cbor
  deriving DecidableEq, Repr

/-- The string value of a serialization kind (`Serials.json` etc.). -/
def kindStr : Kind → String
  | .json => "JSON"
  | .mgpk => "MGPK"
  | .cbor => "CBOR"

/-- The `kind in Serials` membership test on a parsed 4-character string. -/
def toKind (s : String) : Option Kind :=
  if s = "JSON" then some .json
  else if s = "MGPK" then some .mgpk
  else if s = "CBOR" then some .cbor
  else none

/-- The current supported `Version` (`Versionage(major=1, minor=0)` from
`keri.kering`, which is outside this module). -/
def Version : Nat × Nat := (1, 0)

/-- One lowercase hex digit, as produced by Python's `{:x}` format. -/
def toHexDigit (n : Nat) : Char :=
  if n < 10 then Char.ofNat (48 + n) else Char.ofNat (87 + n)

/-- The `[0-9a-f]` character class of the `VEREX` regex, with its value. -/
def hexDigitVal (c : Char) : Option Nat :=
  if '0' ≤ c ∧ c ≤ '9' then some (c.toNat - 48)
  else if 'a' ≤ c ∧ c ≤ 'f' then some (c.toNat - 97 + 10)
  else none

/-- Hex digit expansion loop with fuel (so that it reduces in the kernel);
`i + 1` units of fuel always suffice. -/
def hexDigitsAux : Nat → Nat → List Char → List Char
  | 0, _, acc => acc
  | fuel + 1, n, acc =>
      if n < 16 then toHexDigit n :: acc
      else hexDigitsAux fuel (n / 16) (toHexDigit (n % 16) :: acc)

/-- Python `{:x}`: lowercase hex digits of `n`, most significant first. -/
def hexDigits (n : Nat) : List Char := hexDigitsAux (n + 1) n []

/-- Python `{:06x}`: hex digits of `n` left-padded with `'0'` to at least 6
characters (wider when `n ≥ 16^6`). -/
def hexPad6 (n : Nat) : List Char :=
  List.replicate (6 - (hexDigits n).length) '0' ++ hexDigits n

/-- Positional value of a hex digit string (`int(size, 16)` on the regex
capture); `none` on a non-`[0-9a-f]` character. -/
def hexValList (cs : List Char) : Option Nat :=
  cs.foldl (fun acc c =>
    match acc, hexDigitVal c with
    | some a, some v => some (a * 16 + v)
    | _, _ => none) (some 0)

/-- `hexValList` generalized over the fold's starting accumulator
(proof infrastructure for the lemmas below). -/
def hexValFrom (a : Option Nat) (cs : List Char) : Option Nat :=
  cs.foldl (fun acc c =>
    match acc, hexDigitVal c with
    | some a, some v => some (a * 16 + v)
    | _, _ => none) a

/-- The `[A-Z]` character class of the `kind` group of `VEREX`. -/
def isUpper (c : Char) : Bool := 'A' ≤ c ∧ c ≤ 'Z'

/-- `Versify(version, kind, size)`: the 17-character version string
`KERI{major:x}{minor:x}{KIND}{size:06x}_` (format `VERFMT`). -/
def versifyChars (major minor : Nat) (k : Kind) (size : Nat) : List Char :=
  'K' :: 'E' :: 'R' :: 'I' :: (hexDigits major ++ hexDigits minor ++
    (kindStr k).toList ++ hexPad6 size ++ ['_'])

/-- One attempted match of the `Rever` regex
`KERI(hex)(hex)([A-Z]{4})(hex{6})_` against a 17-character window; returns
the captured `(major, minor, kind-string, size)`. -/
def vsParse (w : List Char) : Option (Nat × Nat × String × Nat) :=
  match w with
  | 'K' :: 'E' :: 'R' :: 'I' :: a :: b :: k1 :: k2 :: k3 :: k4 :: rest =>
      match hexDigitVal a, hexDigitVal b, hexValList (rest.take 6),
            rest.drop 6 with
      | some va, some vb, some sz, ['_'] =>
          if (rest.take 6).length = 6 && isUpper k1 && isUpper k2 &&
             isUpper k3 && isUpper k4 then
            some (va, vb, String.mk [k1, k2, k3, k4], sz)
          else none
      | _, _, _, _ => none
  | _ => none

/-- `Deversify(vs)`: `Rever.match` anchors at the start of `vs` (a prefix
match), then rejects an unknown kind; returns `(kind, version, size)`. -/
def deversify (vs : List Char) : Except Err (Kind × Nat × Nat × Nat) :=
  match vsParse (vs.take 17) with
  | none => .error .valueErr
  | some (ma, mi, ks, sz) =>
      match toKind ks with
      | none => .error .valueErr
      | some k => .ok (k, ma, mi, sz)

/-! ## Key event dicts and the Serder framer (`_inhale`, `_exhale`, `_sniff`) -/

/-- A KED field value: a string or a list of strings (the shapes the key
event dicts of this module use). -/
inductive Val where
  | str : String → Val
  | arr : List String → Val
  deriving DecidableEq, Repr

/-- A key event dict: an ordered mapping (insertion order preserved). -/
abbrev KED := List (String × Val)

/-- Dict lookup `ked[key]` / `key in ked`. -/
def kedGet (k : KED) (key : String) : Option Val :=
  (List.find? (fun p => p.1 == key) k).map (fun p => p.2)

/-- The in-place update `ked["v"] = vs` of `_exhale` (the key keeps its
position; the caller's dict object is the one updated). -/
def kedSetV (k : KED) (vs : String) : KED :=
  List.map (fun p => if p.1 == "v" then (p.1, Val.str vs) else p) k

/-- `MINSNIFFSIZE = 12 + VERFULLSIZE`. -/
def MINSNIFFSIZE : Nat := 29

/-- `re.search` of `Rever` over the buffer: the leftmost window where the
version-string pattern matches, with its start offset. -/
def revSearchAux : List Char → Nat → Option (Nat × (Nat × Nat × String × Nat))
  | [], _ => none
  | l@(_ :: rest), i =>
      match vsParse (l.take 17) with
      | some info => some (i, info)
      | none => revSearchAux rest (i + 1)

def revSearch (s : List Char) : Option (Nat × (Nat × Nat × String × Nat)) :=
  revSearchAux s 0

/-- `Serder._sniff(raw)`: shortage below `MINSNIFFSIZE`; regex search must
match starting within the first 13 bytes; kind must be in `Serials`. -/
def sniff (raw : List Char) : Except Err (Kind × (Nat × Nat) × Nat) :=
  if raw.length < MINSNIFFSIZE then .error .shortage
  else
    match revSearch raw with
    | none => .error .valueErr
    | some (fore, (ma, mi, ks, sz)) =>
        if fore > 12 then .error .valueErr
        else
          match toKind ks with
          | none => .error .valueErr
          | some k => .ok (k, (ma, mi), sz)

/-- `Serder._inhale(raw)`: sniff, reject a non-current version, shortage if
the buffer is shorter than the declared size, then decode `raw[:size]` with
the codec named by the kind (`dec` is the environment's
`json.loads`/`msgpack.loads`/`cbor.loads` family; `none` models its decode
exception). -/
def inhale (raw : List Char) (dec : Kind → List Char → Option KED) :
    Except Err (KED × Kind × (Nat × Nat) × Nat) :=
  match sniff raw with
  | .error e => .error e
  | .ok (k, ver, size) =>
      if ver ≠ Version then .error .versionErr
      else if raw.length < size then .error .shortage
      else
        match dec k (raw.take size) with
        | none => .error .valueErr
        | some ked => .ok (ked, k, ver, size)

/-- `Serder._exhale(ked, kind)`: require a string `"v"` field and deversify
it; reject a non-current version; resolve the kind override; encode with the
codec (`enc` is the environment's `json.dumps`/`msgpack.dumps`/`cbor.dumps`
family); find the version tag in the encoded bytes (must start within the
first 13 bytes; the regex pattern is fixed-width so the span is 17); splice
in a fresh tag carrying the encoded length; require the length unchanged;
store the new tag into the ked (`ked["v"] = vs` — an in-place update of the
caller's dict, returned here as the updated ked). -/
def exhale (ked : KED) (kindOpt : Option Kind) (enc : Kind → KED → List Char) :
    Except Err (List Char × Kind × KED × (Nat × Nat)) :=
  match kedGet ked "v" with
  | none => .error .valueErr
  | some (.arr _) => .error .valueErr
  | some (.str vs0) =>
      match deversify vs0.toList with
      | .error e => .error e
      | .ok (knd, ma, mi, _size0) =>
          if (ma, mi) ≠ Version then .error .versionErr
          else
            let kind := kindOpt.getD knd
            let raw := enc kind ked
            let size := raw.length
            match revSearch raw with
            | none => .error .valueErr
            | some (fore, _info) =>
                if fore > 12 then .error .valueErr
                else
                  let vs := versifyChars ma mi kind size
                  let raw2 := raw.take fore ++ vs ++ raw.drop (fore + 17)
                  if size ≠ raw2.length then .error .valueErr
                  else .ok (raw2, kind, kedSetV ked (String.mk vs), (ma, mi))

/-! ## A concrete JSON codec (model of `json.dumps(..., separators=(",", ":"))`
and `json.loads` for flat KEDs whose strings need no escaping) -/

/-- `'\x7b'` and `'\x7d'`, the object braces. -/
def lbrace : Char := Char.ofNat 123

def rbrace : Char := Char.ofNat 125

def jsonStr (s : String) : List Char := '"' :: s.toList ++ ['"']

def joinComma (ls : List (List Char)) : List Char := List.intercalate [','] ls

def jsonVal : Val → List Char
  | .str s => jsonStr s
  | .arr l => '[' :: joinComma (l.map jsonStr) ++ [']']

/-- `json.dumps(ked, separators=(",", ":"), ensure_ascii=False)` for flat
KEDs (insertion order preserved, no spaces). -/
def jsonEnc (ked : KED) : List Char :=
  lbrace :: joinComma (ked.map (fun p => jsonStr p.1 ++ ':' :: jsonVal p.2)) ++ [rbrace]

/-- Scan a JSON string body up to the closing quote (no escape handling:
the KEDs in scope contain none). -/
def scanStr : List Char → Option (List Char × List Char)
  | [] => none
  | c :: rest =>
      if c = '"' then some ([], rest)
      else (scanStr rest).map (fun p => (c :: p.1, p.2))

def parseQuoted (cs : List Char) : Option (String × List Char) :=
  match cs with
  | '"' :: rest => (scanStr rest).map (fun p => (String.mk p.1, p.2))
  | _ => none

/-- Remaining items of a JSON array of strings, after the first item. -/
def parseArrRest : Nat → List Char → Option (List String × List Char)
  | _, ']' :: rest => some ([], rest)
  | fuel + 1, ',' :: rest =>
      match parseQuoted rest with
      | some (s, r) => (parseArrRest fuel r).map (fun p => (s :: p.1, p.2))
      | none => none
  | _, _ => none

def parseVal (cs : List Char) : Option (Val × List Char) :=
  match cs with
  | '"' :: _ => (parseQuoted cs).map (fun p => (Val.str p.1, p.2))
  | '[' :: rest =>
      match rest with
      | ']' :: r2 => some (.arr [], r2)
      | _ =>
          match parseQuoted rest with
          | some (s, r) =>
              (parseArrRest r.length r).map (fun p => (Val.arr (s :: p.1), p.2))
          | none => none
  | _ => none

def parsePair (cs : List Char) : Option ((String × Val) × List Char) :=
  match parseQuoted cs with
  | some (k, ':' :: r) => (parseVal r).map (fun p => ((k, p.1), p.2))
  | _ => none

/-- Remaining members of a JSON object, after the first pair. -/
def parseMembersRest : Nat → List Char → Option (KED × List Char)
  | _, [] => none
  | 0, _ :: _ => none
  | fuel + 1, c :: rest =>
      if c = rbrace then some ([], rest)
      else if c = ',' then
        match parsePair rest with
        | some (p, r) => (parseMembersRest fuel r).map (fun q => (p :: q.1, q.2))
        | none => none
      else none

/-- `json.loads` for flat KED objects. -/
def jsonDec (cs : List Char) : Option KED :=
  match cs with
  | [] => none
  | c :: rest =>
      if c = lbrace then
        match rest with
        | [] => none
        | c2 :: r2 =>
            if c2 = rbrace then (if r2 = [] then some [] else none)
            else
              match parsePair rest with
              | some (p, r) =>
                  match parseMembersRest r.length r with
                  | some (l, rr) => if rr = [] then some (p :: l) else none
                  | none => none
              | none => none
      else none

/-- The codec family handed to `inhale`/`exhale` when the kind is JSON:
only the JSON branch is modelled concretely. -/
def jsonEncK : Kind → KED → List Char := fun _ ked => jsonEnc ked

def jsonDecK : Kind → List Char → Option KED := fun _ cs => jsonDec cs

/-! ## Verfer.verify and Prefixer.verify -/

/-- `Verfer._ed25519(sig, ser, key)`: calls the environment's
`pysodium.crypto_sign_verify_detached` (here the abstract primitive `prim`,
which returns unit or raises) inside `try/except`: any exception yields
`False`, success yields `True`. -/
def ed25519Verify {ε : Type} (prim : List Nat → List Nat → List Nat → Except ε Unit)
    (sig ser key : List Nat) : Bool :=
  match prim sig ser key with
  | .ok _ => true
  | .error _ => false

/-- Python truthiness of a KED value (`if ked["n"]:`). -/
def truthy : Val → Bool
  | .str s => !(s = "")
  | .arr l => !l.isEmpty

/-- The shared tail of `_verify_ed25519N` / `_verify_ed25519`: the
`prefixed` check against `ked["i"]` and (for the non-transferable variant)
the `ked["n"]` must-be-empty check; every dict failure returns `False`
(the enclosing `try/except`). -/
def verifyBasicTail (ked : KED) (pre : String) (prefixed : Bool)
    (checkN : Bool) : Bool :=
  let iOK : Bool :=
    if prefixed then
      match kedGet ked "i" with
      | some (.str i) => i = pre
      | some (.arr _) => false
      | none => false
    else true
  if !iOK then false
  else if checkN then
    match kedGet ked "n" with
    | none => false
    | some v => !(truthy v)
  else true

/-- `Prefixer._verify_ed25519N(ked, pre, prefixed)`: requires exactly one key
equal to `pre`, the `prefixed` check, and an empty `ked["n"]`; returns
`False` on any exception (missing keys etc.).  A string-valued `ked["k"]`
behaves through `len`/`[0]` as its characters do in Python. -/
def verifyEd25519N (ked : KED) (pre : String) (prefixed : Bool) : Bool :=
  match kedGet ked "k" with
  | none => false
  | some (.arr keys) =>
      match keys with
      | [k0] => if k0 ≠ pre then false else verifyBasicTail ked pre prefixed true
      | _ => false
  | some (.str s) =>
      if s.length ≠ 1 then false
      else if s ≠ pre then false
      else verifyBasicTail ked pre prefixed true

/-- `Prefixer._verify_ed25519(ked, pre, prefixed)`: as above without the
`ked["n"]` check. -/
def verifyEd25519 (ked : KED) (pre : String) (prefixed : Bool) : Bool :=
  match kedGet ked "k" with
  | none => false
  | some (.arr keys) =>
      match keys with
      | [k0] => if k0 ≠ pre then false else verifyBasicTail ked pre prefixed false
      | _ => false
  | some (.str s) =>
      if s.length ≠ 1 then false
      else if s ≠ pre then false
      else verifyBasicTail ked pre prefixed false

/-- `Prefixer.verify(ked, prefixed)`: FIRST reads `ked["t"]` (a missing key
raises `KeyError`) and RAISES `ValueError` when the ilk is not `icp`/`dip`;
only then does it call the code-specific `_verify` (here the two basic-code
verifiers; the digest/signature variants likewise catch their own
exceptions). -/
def prefixerVerify (code : String) (ked : KED) (pre : String)
    (prefixed : Bool) : Except Err Bool :=
  match kedGet ked "t" with
  | none => .error .keyError
  | some (.arr _) => .error .valueErr
  | some (.str t) =>
      if t ≠ "icp" ∧ t ≠ "dip" then .error .valueErr
      else
        if code = "B" then .ok (verifyEd25519N ked pre prefixed)
        else if code = "D" then .ok (verifyEd25519 ked pre prefixed)
        else .error .valueErr

/-! ## Tholder -/

/-- A hex character accepted by `int(s, 16)`, with its value. -/
def hexCharVal (c : Char) : Option Nat :=
  if '0' ≤ c ∧ c ≤ '9' then some (c.toNat - 48)
  else if 'a' ≤ c ∧ c ≤ 'f' then some (c.toNat - 97 + 10)
  else if 'A' ≤ c ∧ c ≤ 'F' then some (c.toNat - 65 + 10)
  else none

def hexNatOf (l : List Char) : Option Nat :=
  match l with
  | [] => none
  | _ =>
      l.foldl (fun acc c =>
        match acc, hexCharVal c with
        | some a, some v => some (a * 16 + v)
        | _, _ => none) (some 0)

/-- `int(sith, 16)` on the sith strings in scope (an optional sign followed
by hex digits); `none` models the `ValueError` on anything unparsable. -/
def parseHexInt (s : String) : Option Int :=
  match s.toList with
  | '-' :: rest => (hexNatOf rest).map (fun n => -(n : Int))
  | '+' :: rest => (hexNatOf rest).map (fun n => (n : Int))
  | l => (hexNatOf l).map (fun n => (n : Int))

/-- Numeric `Tholder` state: `.thold`, `.size`, `.limen` (the sith string
itself). -/
structure TholderN where
  thold : Nat
  size : Nat
  limen : String
  deriving DecidableEq, Repr

/-- `Tholder.__init__` on a hex string sith: `thold = int(sith, 16)`,
rejected below 1; `size = thold`; `limen` is the original string. -/
def mkTholderNumeric (sith : String) : Except Err TholderN :=
  match parseHexInt sith with
  | none => .error .valueErr
  | some t => if t < 1 then .error .valueErr else .ok ⟨t.toNat, t.toNat, sith⟩

/-- `Tholder._satisfy_numeric(indices)`:
`True if len(indices) >= thold else False` (no deduplication; the
`try/except` cannot fire for a list argument). -/
def satisfyNumeric (thold : Nat) (indices : List Int) : Bool :=
  decide (thold ≤ indices.length)

/-- Decimal digit run for the fraction parser. -/
def decNatOf (l : List Char) : Option Nat :=
  match l with
  | [] => none
  | _ =>
      l.foldl (fun acc c =>
        match acc, (if '0' ≤ c ∧ c ≤ '9' then some (c.toNat - 48) else none) with
        | some a, some v => some (a * 10 + v)
        | _, _ => none) (some 0)

/-- Split at the first `'/'` if any. -/
def splitSlash (l : List Char) : List Char × Option (List Char) :=
  match l with
  | [] => ([], none)
  | c :: rest =>
      if c = '/' then ([], some rest)
      else
        let p := splitSlash rest
        (c :: p.1, p.2)

/-- `fractions.Fraction(w)` on the weight strings in scope: an optional
sign, decimal digits, optionally `/` and a nonzero decimal denominator —
parsed as an exact rational; `none` models the `ValueError` /
`ZeroDivisionError`. -/
def parseFraction (s : String) : Option ℚ :=
  let unsigned : List Char → Option ℚ := fun l =>
    match splitSlash l with
    | (num, none) => (decNatOf num).map (fun n => (n : ℚ))
    | (num, some den) =>
        match decNatOf num, decNatOf den with
        | some n, some d => if d = 0 then none else some ((n : ℚ) / (d : ℚ))
        | _, _ => none
  match s.toList with
  | '-' :: rest => (unsigned rest).map (fun q => -q)
  | l => unsigned l

/-- Weighted `Tholder` state: `.thold` (clauses of exact rationals),
`.size` (total weight count), `.limen` (textual join). -/
structure TholderW where
  thold : List (List ℚ)
  size : Nat
  limen : String
  deriving DecidableEq, Repr

/-- `Tholder.__init__` on an iterable of clauses of fraction strings:
reject an empty sith; parse every weight as an exact `Fraction`; every
clause's exact sum must be `≥ 1`; `size` is the total number of weights;
`limen` joins the ORIGINAL textual fractions with `','` inside a clause and
`'&'` between clauses.  (A single clause of strings is wrapped as
`[clause]` by the source's mask logic before reaching this shape.) -/
def mkTholderWeighted (sith : List (List String)) : Except Err TholderW :=
  if sith.isEmpty then .error .valueErr
  else
    match sith.mapM (fun clause => clause.mapM parseFraction) with
    | none => .error .valueErr
    | some thold =>
        if thold.all (fun clause => decide ((1 : ℚ) ≤ clause.sum)) then
          .ok ⟨thold, (thold.map List.length).sum,
               String.intercalate "&" (sith.map (String.intercalate ","))⟩
        else .error .valueErr

/-- Python list indexing semantics of `sats[idx] = True` for a list of
length `n`: `0 ≤ idx < n` writes at `idx`; `-n ≤ idx < 0` writes at
`n + idx`; anything else raises `IndexError`. -/
def pyListSet (sats : List Bool) (idx : Int) : Option (List Bool) :=
  if 0 ≤ idx ∧ idx < (sats.length : Int) then some (sats.set idx.toNat true)
  else if -(sats.length : Int) ≤ idx ∧ idx < 0 then
    some (sats.set (sats.length - (-idx).toNat) true)
  else none

/-- The marking loop `for idx in indices: sats[idx] = True`. -/
def markAll : List Int → List Bool → Option (List Bool)
  | [], sats => some sats
  | i :: rest, sats =>
      match pyListSet sats i with
      | none => none
      | some s2 => markAll rest s2

/-- `sorted(set(indices))`: distinct elements in ascending order (the
sorting algorithm is irrelevant to the values; insertion sort here). -/
def dedupSorted (indices : List Int) : List Int :=
  (indices.dedup).insertionSort (· ≤ ·)

/-- Weight sum of one clause over the marked positions starting at weight
offset `wio` (`if sats[wio]: cw += w`). -/
def clauseW (sats : List Bool) : List ℚ → Nat → ℚ
  | [], _ => 0
  | w :: ws, wio => (if sats.getD wio false then w else 0) + clauseW sats ws (wio + 1)

/-- The clause loop: every clause's marked weight sum must reach 1. -/
def checkClauses (sats : List Bool) : List (List ℚ) → Nat → Bool
  | [], _ => true
  | c :: cs, wio =>
      if clauseW sats c wio < 1 then false else checkClauses sats cs (wio + c.length)

/-- `Tholder._satisfy_weighted(indices)`: `False` on empty indices;
deduplicate and sort; mark a bitmap of length `size` (an out-of-range index
raises `IndexError`, caught by the `try/except` → `False`); then check every
clause. -/
def satisfyWeighted (thold : List (List ℚ)) (size : Nat) (indices : List Int) : Bool :=
  if indices.isEmpty then false
  else
    match markAll (dedupSorted indices) (List.replicate size false) with
    | none => false
    | some sats => checkClauses sats thold 0

/-! ## Lemmas on hex digits and version strings -/

theorem hexDigitsAux_shift : ∀ f n acc,
    hexDigitsAux f n acc = hexDigitsAux f n [] ++ acc := by
  intro f
  induction f with
  | zero => intro n acc; simp [hexDigitsAux]
  | succ f ih =>
    intro n acc
    by_cases h : n < 16
    · simp [hexDigitsAux, h]
    · simp only [hexDigitsAux, if_neg h]
      rw [ih (n / 16) (toHexDigit (n % 16) :: acc), ih (n / 16) [toHexDigit (n % 16)]]
      simp

theorem hexDigitsAux_fuelIrr : ∀ f g n acc, n < 16 ^ f → n < 16 ^ g →
    0 < f → 0 < g → hexDigitsAux f n acc = hexDigitsAux g n acc := by
  intro f
  induction f with
  | zero => omega
  | succ f ih =>
    intro g n acc hf hg hf0 hg0
    obtain ⟨g', rfl⟩ : ∃ g', g = g' + 1 := ⟨g - 1, by omega⟩
    by_cases h : n < 16
    · simp [hexDigitsAux, h]
    · simp only [hexDigitsAux, if_neg h]
      have hf' : n / 16 < 16 ^ f := by
        rw [Nat.div_lt_iff_lt_mul (by norm_num)]
        calc n < 16 ^ (f + 1) := hf
        _ = 16 ^ f * 16 := by ring
      have hg' : n / 16 < 16 ^ g' := by
        rw [Nat.div_lt_iff_lt_mul (by norm_num)]
        calc n < 16 ^ (g' + 1) := hg
        _ = 16 ^ g' * 16 := by ring
      have hfp : 0 < f := by
        rcases Nat.eq_zero_or_pos f with h0 | h0
        · subst h0; simp at hf'; omega
        · exact h0
      have hgp : 0 < g' := by
        rcases Nat.eq_zero_or_pos g' with h0 | h0
        · subst h0; simp at hg'; omega
        · exact h0
      exact ih g' (n / 16) _ hf' hg' hfp hgp

theorem lt_pow_self16 (n : Nat) : n < 16 ^ (n + 1) := by
  calc n < 16 ^ n := Nat.lt_pow_self (by norm_num) n
  _ ≤ 16 ^ (n + 1) := Nat.pow_le_pow_right (by norm_num) (Nat.le_succ n)

/-- The recursive characterization of `{:x}`: lowest digit last. -/
theorem hexDigits_eq (n : Nat) : hexDigits n =
    if n < 16 then [toHexDigit n]
    else hexDigits (n / 16) ++ [toHexDigit (n % 16)] := by
  by_cases h : n < 16
  · simp [hexDigits, hexDigitsAux, h]
  · rw [if_neg h]
    show hexDigitsAux (n + 1) n [] = _
    simp only [hexDigitsAux, if_neg h]
    rw [hexDigitsAux_shift]
    congr 1
    apply hexDigitsAux_fuelIrr
    · calc n / 16 < 16 ^ (n / 16 + 1) := lt_pow_self16 (n / 16)
      _ ≤ 16 ^ n := Nat.pow_le_pow_right (by norm_num) (by omega)
    · exact lt_pow_self16 (n / 16)
    · omega
    · omega

theorem hexDigits_len_le : ∀ f n, n < 16 ^ f → 0 < f → (hexDigits n).length ≤ f := by
  intro f
  induction f with
  | zero => omega
  | succ f ih =>
    intro n hn _
    rw [hexDigits_eq]
    by_cases h : n < 16
    · simp [h]
    · rw [if_neg h]
      have hf' : n / 16 < 16 ^ f := by
        rw [Nat.div_lt_iff_lt_mul (by norm_num)]
        calc n < 16 ^ (f + 1) := hn
        _ = 16 ^ f * 16 := by ring
      have hfp : 0 < f := by
        rcases Nat.eq_zero_or_pos f with h0 | h0
        · subst h0; simp at hf'; omega
        · exact h0
      have := ih (n / 16) hf' hfp
      simp [List.length_append]
      omega

theorem toHexDigit_val : ∀ m, m < 16 → hexDigitVal (toHexDigit m) = some m := by decide

theorem hexValList_eq_from (cs : List Char) : hexValList cs = hexValFrom (some 0) cs := rfl

theorem hexValFrom_append (a : Option Nat) (xs ys : List Char) :
    hexValFrom a (xs ++ ys) = hexValFrom (hexValFrom a xs) ys := by
  simp [hexValFrom, List.foldl_append]

theorem hexVal_hexDigits (n : Nat) : ∀ a0 : Nat,
    hexValFrom (some a0) (hexDigits n) = some (a0 * 16 ^ (hexDigits n).length + n) := by
  induction n using Nat.strong_induction_on with
  | _ n ih =>
    intro a0
    rw [hexDigits_eq]
    by_cases h : n < 16
    · simp [hexValFrom, List.foldl, toHexDigit_val n h, h]
    · rw [if_neg h]
      rw [hexValFrom_append]
      rw [ih (n / 16) (Nat.div_lt_self (by omega) (by norm_num)) a0]
      have hmod : n % 16 < 16 := Nat.mod_lt _ (by norm_num)
      simp [hexValFrom, List.foldl, toHexDigit_val _ hmod, List.length_append]
      rw [pow_succ]
      have := Nat.div_add_mod n 16
      ring_nf
      omega

theorem hexValFrom_zeros (k : Nat) (ds : List Char) :
    hexValFrom (some 0) (List.replicate k '0' ++ ds) = hexValFrom (some 0) ds := by
  rw [hexValFrom_append]
  congr 1
  induction k with
  | zero => rfl
  | succ k ih =>
    rw [List.replicate_succ]
    show hexValFrom (some 0) ('0' :: List.replicate k '0') = some 0
    have h0 : hexDigitVal '0' = some 0 := by decide
    simpa [hexValFrom, h0] using ih

/-- `{:06x}` of `n < 16^6`: exactly 6 characters whose hex value is `n`. -/
theorem hexPad6_spec (n : Nat) (h : n < 16 ^ 6) :
    (hexPad6 n).length = 6 ∧ hexValList (hexPad6 n) = some n := by
  have hlen := hexDigits_len_le 6 n h (by norm_num)
  constructor
  · simp [hexPad6, List.length_append, List.length_replicate]
    omega
  · rw [hexValList_eq_from, hexPad6, hexValFrom_zeros]
    rw [hexVal_hexDigits n 0]
    simp

theorem versify_length (major minor : Nat) (k : Kind) (size : Nat)
    (h1 : major < 16) (h2 : minor < 16) (h3 : size < 16 ^ 6) :
    (versifyChars major minor k size).length = 17 := by
  have hM : hexDigits major = [toHexDigit major] := by rw [hexDigits_eq, if_pos h1]
  have hm : hexDigits minor = [toHexDigit minor] := by rw [hexDigits_eq, if_pos h2]
  have hp := (hexPad6_spec size h3).1
  cases k <;> simp [versifyChars, hM, hm, kindStr, List.length_append, hp]

/-- `Versify` output matches the `Rever` regex with the same groups. -/
theorem vsParse_versify (major minor : Nat) (k : Kind) (size : Nat)
    (h1 : major < 16) (h2 : minor < 16) (h3 : size < 16 ^ 6) :
    vsParse (versifyChars major minor k size) = some (major, minor, kindStr k, size) := by
  have hM : hexDigits major = [toHexDigit major] := by rw [hexDigits_eq, if_pos h1]
  have hm : hexDigits minor = [toHexDigit minor] := by rw [hexDigits_eq, if_pos h2]
  have hp := hexPad6_spec size h3
  have htake : (hexPad6 size ++ ['_']).take 6 = hexPad6 size := List.take_left' hp.1
  have hdrop : (hexPad6 size ++ ['_']).drop 6 = ['_'] := List.drop_left' hp.1
  cases k <;>
    simp [versifyChars, hM, hm, kindStr, vsParse, htake, hdrop,
      toHexDigit_val major h1, toHexDigit_val minor h2, hp.1, hp.2, isUpper]

/-! ## Lemmas on the regex search and KED update -/

theorem revSearchAux_at : ∀ m (s : List Char) i info,
    (∀ j, j < m → vsParse ((s.drop j).take 17) = none) →
    vsParse ((s.drop m).take 17) = some info →
    revSearchAux s i = some (i + m, info) := by
  intro m
  induction m with
  | zero =>
    intro s i info _ hm
    cases s with
    | nil => simp [vsParse] at hm
    | cons a rest =>
      simp only [List.drop_zero] at hm
      simp only [revSearchAux, hm, Nat.add_zero]
  | succ m ih =>
    intro s i info hlt hm
    cases s with
    | nil => simp [vsParse] at hm
    | cons a rest =>
      have h0 : vsParse ((a :: rest).take 17) = none := by
        have := hlt 0 (by omega)
        simpa using this
      simp only [revSearchAux, h0]
      have hlt' : ∀ j, j < m → vsParse ((rest.drop j).take 17) = none := by
        intro j hj
        have := hlt (j + 1) (by omega)
        simpa using this
      have hm' : vsParse ((rest.drop m).take 17) = some info := by
        simpa using hm
      rw [ih rest (i + 1) info hlt' hm']
      have h2 : i + 1 + m = i + (m + 1) := by omega
      rw [h2]

theorem revSearch_at (s : List Char) (m : Nat) (info : Nat × Nat × String × Nat)
    (hlt : ∀ j, j < m → vsParse ((s.drop j).take 17) = none)
    (hm : vsParse ((s.drop m).take 17) = some info) :
    revSearch s = some (m, info) := by
  simpa using revSearchAux_at m s 0 info hlt hm

theorem kedGet_kedSetV_ne (k : KED) (vs : String) (key : String) (h : key ≠ "v") :
    kedGet (kedSetV k vs) key = kedGet k key := by
  induction k with
  | nil => rfl
  | cons p t ih =>
    obtain ⟨a, b⟩ := p
    by_cases ha : a = "v"
    · subst ha
      have hk : ("v" == key) = false := by
        simp [Ne.symm h]
      simp [kedSetV, kedGet, List.find?, hk] at ih ⊢
      exact ih
    · have hb : (a == "v") = false := by simp [ha]
      by_cases hak : a = key
      · subst hak
        simp [kedSetV, kedGet, List.find?, hb]
      · have hk : (a == key) = false := by simp [hak]
        simp [kedSetV, kedGet, List.find?, hb, hk] at ih ⊢
        exact ih

theorem deversify_ok_parse (cs : List Char) (k : Kind) (ma mi sz : Nat)
    (h : deversify cs = .ok (k, ma, mi, sz)) :
    ∃ ks, vsParse (cs.take 17) = some (ma, mi, ks, sz) ∧ toKind ks = some k := by
  unfold deversify at h
  split at h
  · exact Except.noConfusion h
  · split at h
    · exact Except.noConfusion h
    · rename_i heqp x2 kk heqk
      simp only [Except.ok.injEq, Prod.mk.injEq] at h
      obtain ⟨e1, e2, e3, e4⟩ := h
      subst e2 e3 e4
      exact ⟨_, heqp, by rw [heqk, e1]⟩

-- Batteries marks the rational-number operations `@[irreducible]`, which
-- blocks `decide`-style kernel evaluation; restore default reducibility
-- locally so concrete threshold computations evaluate.
attribute [local semireducible] Rat.add Rat.mul Rat.inv

/-! ## Lemmas on the weighted-threshold marking loop -/

theorem pyListSet_some_length (sats s2 : List Bool) (i : Int)
    (h : pyListSet sats i = some s2) : s2.length = sats.length := by
  unfold pyListSet at h
  split at h
  · simp only [Option.some.injEq] at h
    subst h
    exact List.length_set ..
  · split at h
    · simp only [Option.some.injEq] at h
      subst h
      exact List.length_set ..
    · exact Option.noConfusion h

theorem pyListSet_none_of_bad (sats : List Bool) (i : Int)
    (h : i < -(sats.length : Int) ∨ (sats.length : Int) ≤ i) :
    pyListSet sats i = none := by
  unfold pyListSet
  rw [if_neg (by omega), if_neg (by omega)]

theorem markAll_none_of_bad : ∀ (l : List Int) (sats : List Bool),
    (∃ i ∈ l, i < -(sats.length : Int) ∨ (sats.length : Int) ≤ i) →
    markAll l sats = none := by
  intro l
  induction l with
  | nil => rintro sats ⟨i, hmem, _⟩; simp at hmem
  | cons a rest ih =>
    rintro sats ⟨i, hmem, hbad⟩
    rcases List.mem_cons.mp hmem with rfl | hmem'
    · unfold markAll
      rw [pyListSet_none_of_bad sats i hbad]
    · unfold markAll
      cases hp : pyListSet sats a with
      | none => rfl
      | some s2 =>
        exact ih s2 ⟨i, hmem', by rw [pyListSet_some_length sats s2 a hp]; exact hbad⟩

theorem getD_set_bool (l : List Bool) (k j : Nat) :
    (l.set k true).getD j false =
      (l.getD j false || (decide (j = k) && decide (k < l.length))) := by
  induction l generalizing k j with
  | nil => simp [List.set]
  | cons b t ih =>
    cases k with
    | zero =>
      cases j with
      | zero => simp
      | succ j => simp
    | succ k =>
      cases j with
      | zero => simp [List.set]
      | succ j =>
        simp only [List.set, List.getD_cons_succ, ih, List.length_cons]
        congr 2
        · simp
        · simp [Nat.succ_lt_succ_iff]

theorem markAll_good : ∀ (l : List Int) (sats : List Bool),
    (∀ i ∈ l, 0 ≤ i ∧ i < (sats.length : Int)) →
    ∃ sats', markAll l sats = some sats' ∧ sats'.length = sats.length ∧
      ∀ j : Nat, sats'.getD j false =
        (sats.getD j false || l.any (fun i => i == (j : Int))) := by
  intro l
  induction l with
  | nil => intro sats _; exact ⟨sats, rfl, rfl, by simp⟩
  | cons a rest ih =>
    intro sats hgood
    have ha := hgood a (List.mem_cons_self a rest)
    have hset : pyListSet sats a = some (sats.set a.toNat true) := by
      unfold pyListSet
      rw [if_pos ⟨ha.1, ha.2⟩]
    have hlen2 : (sats.set a.toNat true).length = sats.length := List.length_set ..
    obtain ⟨sats', hm, hlen, hchar⟩ := ih (sats.set a.toNat true)
      (fun i hi => by rw [hlen2]; exact hgood i (List.mem_cons_of_mem a hi))
    refine ⟨sats', ?_, by rw [hlen, hlen2], ?_⟩
    · unfold markAll
      rw [hset]
      exact hm
    · intro j
      rw [hchar j, getD_set_bool]
      have hk : a.toNat < sats.length := by omega
      have heq : (decide (j = a.toNat) && decide (a.toNat < sats.length)) = (a == (j : Int)) := by
        rw [decide_eq_true hk, Bool.and_true]
        have hiff : (j = a.toNat) ↔ (a = (j : Int)) := by omega
        rw [decide_eq_decide.mpr hiff]
        rfl
      rw [heq]
      rw [List.any_cons, ← Bool.or_assoc]

theorem mem_dedupSorted (i : Int) (l : List Int) : i ∈ dedupSorted l ↔ i ∈ l := by
  simp [dedupSorted, List.mem_insertionSort, List.mem_dedup]

/-! ## Theorems: CryMat claims -/

/-- C1: the claimed round trip `exfil(infil(raw, code, index)) = (raw, code,
index)` fails on the code for four-character codes: with `code = "1AAA"` and
a valid 33-byte raw (pad 0), `_infil` emits only the bare code — the Python
slice `encodeB64(raw)[:-pad]` with `pad == 0` is `[:0]`, dropping the whole
encoded raw — and `_exfil` of those 4 characters raises `ShortageError`
instead of returning the original triple. -/
theorem C1_fourchar_roundtrip_fails :
    infil "1AAA" 0 (List.replicate 33 0) = .ok ("1AAA".toList) ∧
    exfil ("1AAA".toList) = .error .shortage := ⟨rfl, rfl⟩

/-- C7: `CryCounter(count=3)` emits exactly the qb64 `"-AAD"` (2-char code
`"-A"` plus 2 base-64 index digits `"AD"`, empty raw), and `_exfil` of
`"-AAD"` yields code `"-A"`, index 3 and empty raw. -/
theorem C7_crycounter_count3 :
    (cryCounter 3).bind crymatQb64 = .ok ("-AAD".toList) ∧
    exfil ("-AAD".toList) = .ok ⟨"-A", 3, []⟩ := by decide

/-- C10: every `CryMat` successfully constructed from `(raw, code, index)`
satisfies `len(raw) == CryRawSizes[code]`:  (1) a successful construction
stores exactly the code's raw size, the prefix of the given raw;  (2) a raw
at least as long as the code's raw size (with matching pad class and a valid
index for count codes) is accepted and silently truncated;  (3) a shorter raw
is always rejected with a `ValidationError`. -/
theorem C10_crymat_raw_size (raw : List Nat) (code : String) (index : Nat) :
    (∀ m, crymatFromRaw raw code index = .ok m →
        cryRawSize code = some m.raw.length ∧ m.raw = raw.take m.raw.length) ∧
    (∀ rs, cryRawSize code = some rs → rs ≤ raw.length →
        ((padOf raw == 1 && inOne code) || (padOf raw == 2 && inTwo code) ||
         (padOf raw == 0 && inFour code) || (padOf raw == 0 && inCnt code)) = true →
        (inCnt code = true → index ≤ CRYCNTMAX) →
        crymatFromRaw raw code index = .ok ⟨code, index, raw.take rs⟩) ∧
    (∀ rs, cryRawSize code = some rs → raw.length < rs →
        crymatFromRaw raw code index = .error .validation) := by
  refine ⟨?_, ?_, ?_⟩
  · intro m hm
    unfold crymatFromRaw at hm
    repeat split at hm
    all_goals simp_all
    split at hm
    · cases hm
    split at hm
    · cases hm
    split at hm
    · cases hm
    rename_i rs heq
    split at hm
    · cases hm
    rename_i hge
    cases hm
    have hl : (List.take rs raw).length = rs := by
      simp [List.length_take]
      omega
    simp_all
  · intro rs hrs hle hpad hidx
    have hne : ¬(code = "") := by
      intro hc
      subst hc
      simp [cryRawSize] at hrs
    have hguard : (inCnt code && decide (index > CRYCNTMAX)) = false := by
      cases hin : inCnt code with
      | false => simp
      | true => simp [Nat.not_lt.mpr (hidx hin)]
    unfold crymatFromRaw
    rw [if_neg hne]
    simp only [hpad, hguard, hrs, Bool.not_true]
    simp [List.length_take, Nat.min_eq_left hle]
  · intro rs hrs hlt
    have hne : ¬(code = "") := by
      intro hc
      subst hc
      simp [cryRawSize] at hrs
    have hlen : (raw.take rs).length ≠ rs := by
      simp [List.length_take]
      omega
    by_cases h1 : (!((padOf raw == 1 && inOne code) || (padOf raw == 2 && inTwo code) ||
        (padOf raw == 0 && inFour code) || (padOf raw == 0 && inCnt code))) = true
    all_goals by_cases h2 : (inCnt code && decide (index > CRYCNTMAX)) = true
    all_goals simp [crymatFromRaw, hne, h1, h2, hrs, hlen] <;> omega

/-- Witness for C10: code `"A"` has raw size 32; a 35-byte raw (pad class 1)
is truncated to its 32-byte prefix, a 29-byte raw is rejected. -/
theorem C10_crymat_raw_size_witness :
    crymatFromRaw (List.replicate 35 7) "A" 0 = .ok ⟨"A", 0, List.replicate 32 7⟩ ∧
    crymatFromRaw (List.replicate 29 7) "A" 0 = .error .validation := by
  constructor
  · have h := (C10_crymat_raw_size (List.replicate 35 7) "A" 0).2.1 32
      (by decide) (by decide) (by decide) (by decide)
    exact h.trans (by decide)
  · exact (C10_crymat_raw_size (List.replicate 29 7) "A" 0).2.2 32
      (by decide) (by decide)

/-- C8: for `major, minor < 16`, any kind in `{JSON, MGPK, CBOR}` and
`size < 16^6`, `Versify` produces a 17-character string matching the
`KERI{major:x}{minor:x}{KIND}{size:06x}_` pattern, and `Deversify` of it
returns exactly `(kind, version, size)`; `Deversify` rejects (raises
`ValueError`) a string that does not match the pattern at its start, and a
pattern-matching string whose kind is not in `Serials`. -/
theorem C8_versify_deversify (major minor size : Nat) (k : Kind)
    (h1 : major < 16) (h2 : minor < 16) (h3 : size < 16 ^ 6) :
    (versifyChars major minor k size).length = 17 ∧
    vsParse (versifyChars major minor k size) = some (major, minor, kindStr k, size) ∧
    deversify (versifyChars major minor k size) = .ok (k, major, minor, size) ∧
    (∀ vs, vsParse (vs.take 17) = none → deversify vs = .error .valueErr) ∧
    (∀ vs ma mi ks sz, vsParse (vs.take 17) = some (ma, mi, ks, sz) →
        toKind ks = none → deversify vs = .error .valueErr) := by
  refine ⟨versify_length _ _ _ _ h1 h2 h3, vsParse_versify _ _ _ _ h1 h2 h3, ?_, ?_, ?_⟩
  · unfold deversify
    have h17 : (versifyChars major minor k size).take 17 = versifyChars major minor k size :=
      List.take_of_length_le (le_of_eq (versify_length _ _ _ _ h1 h2 h3))
    rw [h17, vsParse_versify _ _ _ _ h1 h2 h3]
    have hk : toKind (kindStr k) = some k := by cases k <;> rfl
    simp [hk]
  · intro vs hnone
    simp [deversify, hnone]
  · intro vs ma mi ks sz hsome hks
    simp [deversify, hsome, hks]

/-- Witness for C8: version (1,0), kind JSON, size 25 round-trips through
`Versify`/`Deversify`. -/
theorem C8_versify_deversify_witness :
    deversify (versifyChars 1 0 .json 25) = .ok (.json, 1, 0, 25) ∧
    (versifyChars 1 0 .json 25).length = 17 := by
  have h := C8_versify_deversify 1 0 25 .json (by decide) (by decide) (by decide)
  exact ⟨h.2.2.1, h.1⟩

/-- C3 (counterexample): serialization DOES mutate the caller's input:
`_exhale` executes `ked["v"] = vs` on the dict object the caller passed (no
defensive copy is made in `Serder`); for the ked with `v` field
`KERI10JSON000000_` the dict afterwards carries the normalized
`KERI10JSON000019_`, a different dict value than was passed in. -/
theorem C3_exhale_mutates_ked :
    exhale [("v", Val.str "KERI10JSON000000_")] (some .json) jsonEncK =
      .ok ("\x7b\"v\":\"KERI10JSON000019_\"\x7d".toList, .json,
           [("v", Val.str "KERI10JSON000019_")], (1, 0)) ∧
    ([("v", Val.str "KERI10JSON000019_")] : KED) ≠ [("v", Val.str "KERI10JSON000000_")] := by
  decide

/-- C3 (amended): `Serder._exhale` updates exactly the `"v"` entry of the
caller's ked in place (writing the normalized version string) and leaves
every other key's value unchanged; no defensive copy is made (the copying
the spec describes happens in `Prefixer`'s derive methods, not in `Serder`). -/
theorem C3_exhale_updates_only_v (ked : KED) (kindOpt : Option Kind)
    (enc : Kind → KED → List Char) (raw : List Char) (k : Kind) (ked2 : KED)
    (ver : Nat × Nat)
    (h : exhale ked kindOpt enc = .ok (raw, k, ked2, ver)) :
    (∃ vs1, ked2 = kedSetV ked vs1) ∧
    (∀ key, key ≠ "v" → kedGet ked2 key = kedGet ked key) := by
  have h1 : ∃ vs1, ked2 = kedSetV ked vs1 := by
    unfold exhale at h
    repeat split at h
    all_goals try exact Except.noConfusion h
    rename_i vs0 heq
    cases hdv : deversify vs0.toList with
    | error e => simp only [hdv] at h; exact Except.noConfusion h
    | ok q =>
      obtain ⟨knd, ma, mi, sz0⟩ := q
      simp only [hdv] at h
      split at h
      · exact Except.noConfusion h
      · split at h
        · exact Except.noConfusion h
        · split at h
          · exact Except.noConfusion h
          · split at h
            · exact Except.noConfusion h
            · simp only [Except.ok.injEq, Prod.mk.injEq] at h
              exact ⟨_, h.2.2.1.symm⟩
  refine ⟨h1, ?_⟩
  obtain ⟨vs1, rfl⟩ := h1
  intro key hk
  exact kedGet_kedSetV_ne ked vs1 key hk

/-- Witness for C3: at the concrete one-field ked, the non-`"v"` key
`"t"` reads the same before and after. -/
theorem C3_exhale_updates_only_v_witness : kedGet [("v", Val.str "KERI10JSON000019_")] "t" =
    kedGet [("v", Val.str "KERI10JSON000000_")] "t" := by
  have h := C3_exhale_updates_only_v [("v", Val.str "KERI10JSON000000_")] (some .json) jsonEncK
      ("\x7b\"v\":\"KERI10JSON000019_\"\x7d".toList) .json
      [("v", Val.str "KERI10JSON000019_")] (1, 0) (by decide)
  exact h.2 "t" (by decide)

/-- C4 (counterexample): the round trip fails as stated for a small KED:
`\x7b"v":"KERI10JSON000000_"\x7d` exhales to 25 bytes (correctly patched to
`KERI10JSON000019_`), but `_inhale` of those bytes raises `ShortageError`
because 25 < `MINSNIFFSIZE` = 29, instead of returning the KED. -/
theorem C4_small_ked_fails_sniff :
    exhale [("v", Val.str "KERI10JSON000000_")] (some .json) jsonEncK =
      .ok ("\x7b\"v\":\"KERI10JSON000019_\"\x7d".toList, .json,
           [("v", Val.str "KERI10JSON000019_")], (1, 0)) ∧
    inhale ("\x7b\"v\":\"KERI10JSON000019_\"\x7d".toList) jsonDecK = .error .shortage := by
  decide

/-- C4 (amended): for every ked whose string `"v"` field is a well-formed
17-character current-version string, every kind, and every lawful codec
(`enc`/`dec` the environment's serializer pair) for which the encoding embeds
the `v` text literally at offset `A.length ≤ 12` as the first pattern match,
PROVIDED the serialization is at least `MINSNIFFSIZE` = 29 bytes: `_exhale`
patches the version string in place without changing the total length,
`_inhale` of the produced bytes returns exactly the input ked with its `"v"`
normalized, and the size recorded in the patched version string equals the
byte length of the serialization. -/
theorem C4_exhale_inhale_roundtrip (ked : KED) (kind : Kind) (A B : List Char) (vs0 : String)
    (knd0 : Kind) (size0 : Nat)
    (enc : Kind → KED → List Char) (dec : Kind → List Char → Option KED)
    (hv : kedGet ked "v" = some (.str vs0))
    (hvlen : vs0.length = 17)
    (hvp : deversify vs0.toList = .ok (knd0, 1, 0, size0))
    (hsize : A.length + 17 + B.length < 16 ^ 6)
    (hsniff : MINSNIFFSIZE ≤ A.length + 17 + B.length)
    (hA : A.length ≤ 12)
    (henc0 : enc kind ked = A ++ vs0.toList ++ B)
    (hno0 : ∀ j, j < A.length → vsParse (((A ++ vs0.toList ++ B).drop j).take 17) = none)
    (hno1 : ∀ j, j < A.length →
        vsParse (((A ++ versifyChars 1 0 kind (A.length + 17 + B.length) ++ B).drop j).take 17) = none)
    (hdec : dec kind (A ++ versifyChars 1 0 kind (A.length + 17 + B.length) ++ B) =
        some (kedSetV ked (String.mk (versifyChars 1 0 kind (A.length + 17 + B.length))))) :
    exhale ked (some kind) enc =
      .ok (A ++ versifyChars 1 0 kind (A.length + 17 + B.length) ++ B, kind,
           kedSetV ked (String.mk (versifyChars 1 0 kind (A.length + 17 + B.length))), (1, 0)) ∧
    inhale (A ++ versifyChars 1 0 kind (A.length + 17 + B.length) ++ B) dec =
      .ok (kedSetV ked (String.mk (versifyChars 1 0 kind (A.length + 17 + B.length))), kind,
           (1, 0), A.length + 17 + B.length) ∧
    deversify (versifyChars 1 0 kind (A.length + 17 + B.length)) =
      .ok (kind, 1, 0, A.length + 17 + B.length) := by
  have hl0 : vs0.toList.length = 17 := by
    simpa using hvlen
  have hlen1 : (versifyChars 1 0 kind (A.length + 17 + B.length)).length = 17 :=
    versify_length 1 0 kind _ (by norm_num) (by norm_num) hsize
  obtain ⟨ks0, hp0, hk0⟩ := deversify_ok_parse vs0.toList knd0 1 0 size0 hvp
  rw [List.take_of_length_le (by omega)] at hp0
  have hlen0 : (A ++ vs0.toList ++ B).length = A.length + 17 + B.length := by
    simp [List.length_append, hl0]
    omega
  have hlen2 : (A ++ versifyChars 1 0 kind (A.length + 17 + B.length) ++ B).length =
      A.length + 17 + B.length := by
    simp [List.length_append, hlen1]
    omega
  have hdrop0 : (A ++ vs0.toList ++ B).drop A.length = vs0.toList ++ B := by
    simpa using List.drop_left A (vs0.toList ++ B)
  have hsearch0 : revSearch (A ++ vs0.toList ++ B) = some (A.length, (1, 0, ks0, size0)) := by
    apply revSearch_at _ _ _ hno0
    rw [hdrop0, List.take_left' hl0]
    exact hp0
  have hvsp1 : vsParse (versifyChars 1 0 kind (A.length + 17 + B.length)) =
      some (1, 0, kindStr kind, A.length + 17 + B.length) :=
    vsParse_versify 1 0 kind _ (by norm_num) (by norm_num) hsize
  have hsearch1 : revSearch (A ++ versifyChars 1 0 kind (A.length + 17 + B.length) ++ B) =
      some (A.length, (1, 0, kindStr kind, A.length + 17 + B.length)) := by
    apply revSearch_at _ _ _ hno1
    rw [show (A ++ versifyChars 1 0 kind (A.length + 17 + B.length) ++ B).drop A.length =
        versifyChars 1 0 kind (A.length + 17 + B.length) ++ B from by
      simpa using List.drop_left A _]
    rw [List.take_left' hlen1]
    exact hvsp1
  have htk : toKind (kindStr kind) = some kind := by cases kind <;> rfl
  have hdv1 : deversify (versifyChars 1 0 kind (A.length + 17 + B.length)) =
      .ok (kind, 1, 0, A.length + 17 + B.length) := by
    unfold deversify
    rw [List.take_of_length_le (le_of_eq hlen1)]
    simp only [hvsp1, htk]
  refine ⟨?_, ?_, hdv1⟩
  · unfold exhale
    simp only [hv, hvp]
    rw [if_neg (by simp [Version])]
    simp only [Option.getD, henc0, hlen0, hsearch0]
    rw [if_neg (by omega)]
    have htake : (A ++ vs0.toList ++ B).take A.length = A := by
      simpa using List.take_left A (vs0.toList ++ B)
    have hdropb : (A ++ vs0.toList ++ B).drop (A.length + 17) = B := by
      rw [show A ++ vs0.toList ++ B = (A ++ vs0.toList) ++ B from by simp]
      exact List.drop_left' (by simp [hl0, hvlen])
    rw [htake, hdropb]
    rw [if_neg (by simp [List.length_append, hlen1]; omega)]
  · have hs29 : (29 : Nat) ≤ A.length + 17 + B.length := hsniff
    have hsniffr : sniff (A ++ versifyChars 1 0 kind (A.length + 17 + B.length) ++ B) =
        .ok (kind, (1, 0), A.length + 17 + B.length) := by
      unfold sniff
      have hc1 : ¬((A ++ versifyChars 1 0 kind (A.length + 17 + B.length) ++ B).length <
          MINSNIFFSIZE) := by
        rw [hlen2]
        simp only [MINSNIFFSIZE]
        omega
      rw [if_neg hc1]
      simp only [hsearch1]
      rw [if_neg (show ¬(A.length > 12) by omega)]
      simp only [htk]
    unfold inhale
    simp only [hsniffr]
    rw [if_neg (show ¬((1, 0) ≠ Version) from by simp [Version])]
    have hc2 : ¬((A ++ versifyChars 1 0 kind (A.length + 17 + B.length) ++ B).length <
        A.length + 17 + B.length) := by
      rw [hlen2]
      omega
    rw [if_neg hc2]
    rw [List.take_of_length_le (le_of_eq hlen2)]
    simp only [hdec]

/-- Witness for C4: the two-field JSON ked with `v` and `t`, 35 bytes,
round-trips with `v` normalized to `KERI10JSON000023_`. -/
theorem C4_exhale_inhale_roundtrip_witness :
    exhale [("v", Val.str "KERI10JSON000000_"), ("t", Val.str "icp")] (some .json) jsonEncK =
      .ok ("\x7b\"v\":\"KERI10JSON000023_\",\"t\":\"icp\"\x7d".toList, .json,
           [("v", Val.str "KERI10JSON000023_"), ("t", Val.str "icp")], (1, 0)) ∧
    inhale ("\x7b\"v\":\"KERI10JSON000023_\",\"t\":\"icp\"\x7d".toList) jsonDecK =
      .ok ([("v", Val.str "KERI10JSON000023_"), ("t", Val.str "icp")], .json, (1, 0), 35) := by
  have h := C4_exhale_inhale_roundtrip [("v", Val.str "KERI10JSON000000_"), ("t", Val.str "icp")] .json
      ("\x7b\"v\":\"".toList) ("\",\"t\":\"icp\"\x7d".toList) "KERI10JSON000000_" .json 0
      jsonEncK jsonDecK (by decide) (by decide) (by decide) (by decide) (by decide)
      (by decide) (by decide) (by decide) (by decide) (by decide)
  exact ⟨h.1.trans (by decide), h.2.1.trans (by decide)⟩

/-- C2 (counterexample): for sith `"2"` the duplicate list `[1, 1]` DOES
satisfy (`len([1,1]) = 2 >= 2`), contradicting the claim that duplicates are
deduplicated. -/
theorem C2_duplicate_indices_satisfy :
    mkTholderNumeric "2" = .ok ⟨2, 2, "2"⟩ ∧ satisfyNumeric 2 [1, 1] = true := by decide

/-- C2 (amended): for every Tholder built from a numeric hex sith string,
`satisfy(indices)` returns True if and only if `len(indices) >= thold` — the
RAW length, duplicates counted (the source performs NO deduplication in
`_satisfy_numeric`); the parsed threshold is at least 1. -/
theorem C2_satisfy_numeric (sith : String) (th : TholderN) (indices : List Int)
    (h : mkTholderNumeric sith = .ok th) :
    1 ≤ th.thold ∧ (satisfyNumeric th.thold indices = true ↔ th.thold ≤ indices.length) := by
  constructor
  · unfold mkTholderNumeric at h
    split at h
    · exact Except.noConfusion h
    · rename_i t
      split at h
      · exact Except.noConfusion h
      · rename_i hlt
        simp only [Except.ok.injEq] at h
        subst h
        simp only
        omega
  · simp [satisfyNumeric]

/-- Witness for C2: sith `"2"`: `[0,1]` satisfies, `[0]` does not. -/
theorem C2_satisfy_numeric_witness : satisfyNumeric 2 [0, 1] = true ∧ satisfyNumeric 2 [0] = false := by
  have h1 := C2_satisfy_numeric "2" ⟨2, 2, "2"⟩ [0, 1] (by decide)
  have h2 := C2_satisfy_numeric "2" ⟨2, 2, "2"⟩ [0] (by decide)
  constructor
  · exact h1.2.mpr (by decide)
  · cases hb : satisfyNumeric 2 [0] with
    | false => rfl
    | true => exact absurd (h2.2.mp hb) (by decide)

/-- C5 (counterexample): `Prefixer.verify` on a ked with ilk `"rot"` raises
`ValueError` instead of returning False, contradicting the claim that a
wrong ilk yields False at the boolean surface. -/
theorem C5_wrong_ilk_raises :
    prefixerVerify "B" [("t", Val.str "rot"), ("k", Val.arr ["K0"]), ("n", Val.str "")]
      "K0" false = .error .valueErr := by decide

/-- C5 (amended): `Verfer.verify`'s cipher routine is boolean-valued — it
returns True exactly when the underlying primitive succeeds and False on any
raised error.  `Prefixer.verify` returns a boolean for incepting keds
(ilk `icp`/`dip`, basic codes), but it RAISES: `ValueError` on a
non-incepting ilk and `KeyError` on a ked without a `"t"` field. -/
theorem C5_verify_error_behavior :
    (∀ (ε : Type) (prim : List Nat → List Nat → List Nat → Except ε Unit)
        (sig ser key : List Nat),
        (ed25519Verify prim sig ser key = true ↔ prim sig ser key = .ok ()) ∧
        (ed25519Verify prim sig ser key = false ↔ ∃ e, prim sig ser key = .error e)) ∧
    (∀ code ked pre prefixed t, (code = "B" ∨ code = "D") →
        kedGet ked "t" = some (.str t) → (t = "icp" ∨ t = "dip") →
        ∃ b, prefixerVerify code ked pre prefixed = .ok b) ∧
    (∀ code ked pre prefixed t, kedGet ked "t" = some (.str t) →
        t ≠ "icp" → t ≠ "dip" →
        prefixerVerify code ked pre prefixed = .error .valueErr) ∧
    (∀ code ked pre prefixed, kedGet ked "t" = none →
        prefixerVerify code ked pre prefixed = .error .keyError) := by
  refine ⟨?_, ?_, ?_, ?_⟩
  · intro ε prim sig ser key
    constructor
    · unfold ed25519Verify
      cases hp : prim sig ser key with
      | ok u => cases u; simp
      | error e => simp
    · unfold ed25519Verify
      cases hp : prim sig ser key with
      | ok u => simp
      | error e => simp
  · intro code ked pre prefixed t hcode ht hilk
    unfold prefixerVerify
    simp only [ht]
    have hcond : ¬(t ≠ "icp" ∧ t ≠ "dip") := by
      rcases hilk with rfl | rfl <;> simp
    rw [if_neg hcond]
    rcases hcode with rfl | rfl
    · exact ⟨verifyEd25519N ked pre prefixed, by simp⟩
    · exact ⟨verifyEd25519 ked pre prefixed, by simp⟩
  · intro code ked pre prefixed t ht h1 h2
    unfold prefixerVerify
    simp only [ht]
    rw [if_pos ⟨h1, h2⟩]
  · intro code ked pre prefixed ht
    unfold prefixerVerify
    simp only [ht]

/-- Witness for C5: a failing primitive yields False, a succeeding one True,
and verification of an incepting ked returns a boolean. -/
theorem C5_verify_error_behavior_witness :
    ed25519Verify (fun _ _ _ => (Except.error () : Except Unit Unit)) [] [] [] = false ∧
    ed25519Verify (fun _ _ _ => (Except.ok () : Except Unit Unit)) [] [] [] = true ∧
    (prefixerVerify "B" [("t", Val.str "icp"), ("k", Val.arr ["K0"]), ("n", Val.str "")]
      "K0" false).isOk = true := by
  refine ⟨?_, ?_, ?_⟩
  · exact (C5_verify_error_behavior.1 Unit _ [] [] []).2.mpr ⟨(), rfl⟩
  · exact (C5_verify_error_behavior.1 Unit _ [] [] []).1.mpr rfl
  · obtain ⟨b, hb⟩ := C5_verify_error_behavior.2.1 "B"
      [("t", Val.str "icp"), ("k", Val.arr ["K0"]), ("n", Val.str "")] "K0" false "icp"
      (Or.inl rfl) (by decide) (Or.inl rfl)
    rw [hb]
    rfl

/-- C6 (counterexample): for the weighted Tholder `[["1"]]` (size 1) the
out-of-range index list `[-1]` SATISFIES: `sats[-1] = True` marks the last
slot instead of raising, so satisfy returns True where the claim requires
False for an index `< 0`. -/
theorem C6_negative_index_wraps :
    mkTholderWeighted [["1"]] = .ok ⟨[[1]], 1, "1"⟩ ∧
    satisfyWeighted [[1]] 1 [-1] = true := by decide

/-- C6 (amended): weighted `satisfy(indices)` returns False whenever any
index is `≥ size` or `< -size` (the `IndexError` is swallowed); but a
negative index in `[-size, -1]` does NOT make it return False — Python list
indexing aliases it to `size + idx`.  For indices all in `[0, size)` the
result is True iff the list is nonempty and every clause's sum of weights at
marked positions (marking deduplicates) is at least 1. -/
theorem C6_satisfy_weighted_range (thold : List (List ℚ)) (size : Nat) (indices : List Int) :
    ((∃ i ∈ indices, i < -(size : Int) ∨ (size : Int) ≤ i) →
        satisfyWeighted thold size indices = false) ∧
    ((∀ i ∈ indices, 0 ≤ i ∧ i < (size : Int)) →
        (satisfyWeighted thold size indices = true ↔
          indices ≠ [] ∧
          checkClauses ((List.range size).map (fun (j : Nat) => indices.contains ((j : Int))))
            thold 0 = true)) := by
  constructor
  · rintro ⟨i, hmem, hbad⟩
    unfold satisfyWeighted
    rw [if_neg (by simp [List.isEmpty_iff]; exact List.ne_nil_of_mem hmem)]
    have hnone : markAll (dedupSorted indices) (List.replicate size false) = none := by
      apply markAll_none_of_bad
      exact ⟨i, (mem_dedupSorted i indices).mpr hmem,
        by simpa [List.length_replicate] using hbad⟩
    simp only [hnone]
  · intro hgood
    by_cases hnil : indices = []
    · subst hnil
      simp [satisfyWeighted]
    · unfold satisfyWeighted
      rw [if_neg (by simpa [List.isEmpty_iff] using hnil)]
      obtain ⟨sats', hm, hlen, hchar⟩ := markAll_good (dedupSorted indices)
        (List.replicate size false) (fun i hi => by
          simpa [List.length_replicate] using hgood i ((mem_dedupSorted i indices).mp hi))
      simp only [hm]
      have hany : ∀ a : Int,
          ((dedupSorted indices).any (fun i => i == a)) = indices.contains a := by
        intro a
        rw [List.contains_eq_any_beq]
        by_cases hmem : a ∈ indices
        · rw [List.any_eq_true.mpr ⟨a, (mem_dedupSorted a indices).mpr hmem, by simp⟩,
            List.any_beq.mpr hmem]
        · have h1 : (dedupSorted indices).any (fun i => i == a) = false := by
            apply List.any_eq_false.mpr
            intro i hi
            simp only [beq_iff_eq]
            intro hia
            exact hmem (hia ▸ (mem_dedupSorted i indices).mp hi)
          have h2 : indices.any (fun x => a == x) = false := by
            apply List.any_eq_false.mpr
            intro i hi
            simp only [beq_iff_eq]
            intro hia
            exact hmem (hia ▸ hi)
          rw [h1, h2]
      have hrep : ∀ j : Nat, (List.replicate size false).getD j false = false := by
        intro j
        rcases Nat.lt_or_ge j size with hlt | hge
        · rw [List.getD_eq_getElem?_getD,
            List.getElem?_eq_getElem (by simpa [List.length_replicate] using hlt)]
          simp [List.getElem_replicate]
        · rw [List.getD_eq_getElem?_getD,
            List.getElem?_eq_none (by simpa [List.length_replicate] using hge)]
          rfl
      have hsats : sats' =
          (List.range size).map (fun (j : Nat) => indices.contains ((j : Int))) := by
        apply List.ext_getElem
        · rw [hlen, List.length_replicate, List.length_map, List.length_range]
        · intro j h1 h2
          have hj : j < size := by
            have := h1
            rw [hlen, List.length_replicate] at this
            exact this
          have hgd := hchar j
          rw [hrep j, Bool.false_or, hany ((j : Int))] at hgd
          rw [List.getD_eq_getElem?_getD, List.getElem?_eq_getElem h1,
            Option.getD_some] at hgd
          rw [hgd, List.getElem_map, List.getElem_range]
      rw [hsats]
      simp [hnil]

/-- Witness for C6: clause `["1/2","1/2","1/2"]` (size 3): `[0,2]`
satisfies; `[5]` is out of range and fails. -/
theorem C6_satisfy_weighted_range_witness :
    satisfyWeighted [[mkRat 1 2, mkRat 1 2, mkRat 1 2]] 3 [0, 2] = true ∧
    satisfyWeighted [[mkRat 1 2, mkRat 1 2, mkRat 1 2]] 3 [5] = false := by
  constructor
  · exact ((C6_satisfy_weighted_range [[mkRat 1 2, mkRat 1 2, mkRat 1 2]] 3 [0, 2]).2 (by decide)).mpr
      ⟨by decide, by decide⟩
  · exact (C6_satisfy_weighted_range [[mkRat 1 2, mkRat 1 2, mkRat 1 2]] 3 [5]).1 ⟨5, by decide, by decide⟩

/-- C9: weighted `Tholder` construction uses exact rational arithmetic: a
sith is accepted iff it is nonempty, every weight parses as an exact
`Fraction`, and every clause's exact sum is at least 1; on acceptance the
limen is the clauses joined by `'&'` with the ORIGINAL textual fractions
joined by `','`, and the state records exactly the parsed rationals. -/
theorem C9_weighted_exact_rationals (sith : List (List String)) :
    (∀ th, mkTholderWeighted sith = .ok th →
        th.limen = String.intercalate "&" (sith.map (String.intercalate ",")) ∧
        th.size = (th.thold.map List.length).sum ∧
        sith.mapM (fun clause => clause.mapM parseFraction) = some th.thold ∧
        ∀ clause ∈ th.thold, (1 : ℚ) ≤ clause.sum) ∧
    ((∃ th, mkTholderWeighted sith = .ok th) ↔
        sith ≠ [] ∧ ∃ thold, sith.mapM (fun clause => clause.mapM parseFraction) = some thold ∧
          ∀ clause ∈ thold, (1 : ℚ) ≤ clause.sum) := by
  constructor
  · intro th h
    unfold mkTholderWeighted at h
    split at h
    · exact Except.noConfusion h
    · split at h
      · exact Except.noConfusion h
      · rename_i thold hm
        split at h
        · rename_i hall
          simp only [Except.ok.injEq] at h
          subst h
          refine ⟨rfl, rfl, hm, ?_⟩
          intro clause hc
          have := List.all_eq_true.mp hall clause hc
          simpa using this
        · exact Except.noConfusion h
  · constructor
    · rintro ⟨th, h⟩
      unfold mkTholderWeighted at h
      split at h
      · exact Except.noConfusion h
      · rename_i hne
        split at h
        · exact Except.noConfusion h
        · rename_i thold hm
          split at h
          · rename_i hall
            refine ⟨by simpa [List.isEmpty_iff] using hne, thold, hm, ?_⟩
            intro clause hc
            have := List.all_eq_true.mp hall clause hc
            simpa using this
          · exact Except.noConfusion h
    · rintro ⟨hne, thold, hm, hall⟩
      refine ⟨⟨thold, (thold.map List.length).sum,
        String.intercalate "&" (sith.map (String.intercalate ","))⟩, ?_⟩
      unfold mkTholderWeighted
      rw [if_neg (by simpa [List.isEmpty_iff] using hne)]
      simp only [hm]
      rw [if_pos ?_]
      exact List.all_eq_true.mpr (fun clause hc => by simpa using hall clause hc)

/-- Witness for C9: `[["1/3","1/3","1/3"]]` is accepted (`1/3+1/3+1/3 = 1`
exactly), and `[["1/2","1/2","1/2"],["1/2","1/2"]]` yields limen
`"1/2,1/2,1/2&1/2,1/2"`. -/
theorem C9_weighted_exact_rationals_witness :
    (mkTholderWeighted [["1/3", "1/3", "1/3"]]).isOk = true ∧
    (mkTholderWeighted [["1/2", "1/2", "1/2"], ["1/2", "1/2"]]).map TholderW.limen =
      .ok "1/2,1/2,1/2&1/2,1/2" := by
  constructor
  · obtain ⟨th, hth⟩ := (C9_weighted_exact_rationals [["1/3", "1/3", "1/3"]]).2.mpr
      ⟨by decide, [[mkRat 1 3, mkRat 1 3, mkRat 1 3]], by decide, by decide⟩
    rw [hth]
    rfl
  · obtain ⟨th, hth⟩ := (C9_weighted_exact_rationals [["1/2", "1/2", "1/2"], ["1/2", "1/2"]]).2.mpr
      ⟨by decide, [[mkRat 1 2, mkRat 1 2, mkRat 1 2], [mkRat 1 2, mkRat 1 2]],
       by decide, by decide⟩
    rw [hth]
    show Except.ok th.limen = Except.ok "1/2,1/2,1/2&1/2,1/2"
    rw [((C9_weighted_exact_rationals [["1/2", "1/2", "1/2"], ["1/2", "1/2"]]).1 th hth).1]
    rfl

end Keri
